import Mathlib

/-!
Verification development for the optimistic mutation engine
(delta algebra, mutation proxy, transaction state machine, collection
coordinator).  The definitions below are shallow embeddings of the
TypeScript source:

  * `Val` models the JS values handled by the engine; records and arrays
    keep field/element order.  JS object spreads, property reads/writes,
    truthiness and strict-mode write errors are modelled explicitly.
  * `Delta` embeds the `DeltaOperation` record of the delta module.
  * `mergeVal` embeds `merge` from `merge.ts`.
  * `recordPushVariantOne`/`recordPushVariantTwo` embed the `push` cases
    of the two `createMutationProxy` variants in `proxy.ts`.
  * `stepTx` and the `Transaction.*` methods embed the XState transaction
    machine and the `Transaction` class.
  * `CollectionCtx` with `lockItem`, `settle`, `notifyEntries`,
    `insertStep`, `getItems` and `applyPendingChanges` embeds the
    collection machine and the `Collection` class of `collection.ts`.
-/

mutual
/-- JS values as manipulated by the engine.  `undef` is JS `undefined`
(the result of reading an absent attribute).  Dates, regexes and big
integers are opaque leaves not needed by any claim and are omitted.
JS object identity is not modelled: all map keys used by the engine are
strings, for which JS `Map`/`Set` equality (SameValueZero) coincides
with structural equality. -/
inductive Val where
  | undefV : Val
  | nullV : Val
  | boolV : Bool → Val
  | num : Int → Val
  | str : String → Val
  | arr : ValArr → Val
  | obj : ValObj → Val
  deriving DecidableEq

/-- Spine of a JS array (ordered elements). -/
inductive ValArr where
  | nil : ValArr
  | cons : Val → ValArr → ValArr
  deriving DecidableEq

/-- Spine of a JS object: ordered string-keyed fields, as JS objects
enumerate them. -/
inductive ValObj where
  | nil : ValObj
  | cons : String → Val → ValObj → ValObj
  deriving DecidableEq
end

def ValArr.ofList : List Val → ValArr
  | [] => .nil
  | v :: rest => .cons v (ValArr.ofList rest)

def ValArr.toList : ValArr → List Val
  | .nil => []
  | .cons v rest => v :: rest.toList

def ValObj.ofList : List (String × Val) → ValObj
  | [] => .nil
  | (k, v) :: rest => .cons k v (ValObj.ofList rest)

def ValObj.toList : ValObj → List (String × Val)
  | .nil => []
  | .cons k v rest => (k, v) :: rest.toList

/-- Array literal helper. -/
def varr (l : List Val) : Val := .arr (ValArr.ofList l)

/-- Object literal helper. -/
def vobj (l : List (String × Val)) : Val := .obj (ValObj.ofList l)

/-- JS truthiness (`!v` in the source is the negation of this). -/
def Val.truthy : Val → Bool
  | .undefV => false
  | .nullV => false
  | .boolV b => b
  | .num n => n != 0
  | .str s => s != ""
  | .arr _ => true
  | .obj _ => true

/-- Property read on an object: JS yields `undefined` for an absent key. -/
def ValObj.get : ValObj → String → Val
  | .nil, _ => .undefV
  | .cons k v rest, key => if k = key then v else rest.get key

/-- Property write on an object: an existing key keeps its position, a new
key is appended, as JS objects do. -/
def ValObj.set : ValObj → String → Val → ValObj
  | .nil, key, v => .cons key v .nil
  | .cons k w rest, key, v =>
      if k = key then .cons key v rest else .cons k w (rest.set key v)

/-- Property deletion (`delete obj[k]`). -/
def ValObj.del : ValObj → String → ValObj
  | .nil, _ => .nil
  | .cons k w rest, key =>
      if k = key then rest else .cons k w (rest.del key)

def ValArr.length : ValArr → Nat
  | .nil => 0
  | .cons _ rest => 1 + rest.length

/-- Element read by position; out of range reads give `undefined`. -/
def ValArr.idx : ValArr → Nat → Val
  | .nil, _ => .undefV
  | .cons v _, 0 => v
  | .cons _ rest, n + 1 => rest.idx n

/-- `array.push(v)` with a single element. -/
def ValArr.snoc : ValArr → Val → ValArr
  | .nil, v => .cons v .nil
  | .cons w rest, v => .cons w (rest.snoc v)

/-- `array.push(...values)`. -/
def ValArr.appendList : ValArr → List Val → ValArr
  | a, [] => a
  | a, v :: rest => (a.snoc v).appendList rest

/-- `array.unshift(...values)`: the values go in front, in order. -/
def ValArr.prependList : List Val → ValArr → ValArr
  | [], a => a
  | v :: rest, a => .cons v (ValArr.prependList rest a)

/-- `array.pop()`: removes the last element; no-op on the empty array. -/
def ValArr.popBack : ValArr → ValArr
  | .nil => .nil
  | .cons _ .nil => .nil
  | .cons v rest => .cons v rest.popBack

/-- `array.shift()`: removes the first element; no-op on the empty array. -/
def ValArr.popFront : ValArr → ValArr
  | .nil => .nil
  | .cons _ rest => rest

/-- A string is a canonical JS array index ("0", "1", …) iff it prints
back to itself; JS treats "01" as a plain property, not an index. -/
def canonicalIdx (p : String) : Option Nat :=
  match p.toNat? with
  | some n => if toString n = p then some n else none
  | none => none

/-- Indexed property read on an array (`a[p]`), including `length`. -/
def arrGet (a : ValArr) (p : String) : Val :=
  if p = "length" then .num a.length
  else match canonicalIdx p with
    | some n => a.idx n
    | none => .undefV

def ValArr.setIdx : ValArr → Nat → Val → ValArr
  | .nil, 0, v => .cons v .nil
  | .nil, n + 1, v => .cons .undefV (ValArr.setIdx .nil n v)
  | .cons _ rest, 0, v => .cons v rest
  | .cons w rest, n + 1, v => .cons w (rest.setIdx n v)

/-- Indexed property write on an array: in-range writes replace, writes
past the end pad with holes (read back as `undefined`).  Writes to
`length` or to non-index keys touch array-object state this model does
not represent and are left as no-ops; no claim exercises them. -/
def arrAssign (a : ValArr) (p : String) (v : Val) : ValArr :=
  match canonicalIdx p with
  | some n => a.setIdx n v
  | none => a

/-- Indexed read on a string primitive (`s[p]`), including `length`.
Positions count Lean characters where JS counts UTF-16 units; the engine
never indexes strings, so the difference is immaterial. -/
def strIdx (s : String) (p : String) : Val :=
  if p = "length" then .num s.length
  else match canonicalIdx p with
    | some n =>
        match s.data.drop n with
        | [] => .undefV
        | c :: _ => .str (String.mk [c])
    | none => .undefV

/-- General JS property read `cur[p]`: objects and arrays by key, string
primitives by index, other primitives give `undefined`. -/
def propGet (cur : Val) (p : String) : Val :=
  match cur with
  | .obj o => o.get p
  | .arr a => arrGet a p
  | .str s => strIdx s p
  | _ => .undefV

/-- Object spread `{...target}`: objects copy their fields; arrays and
strings enumerate their indices as keys "0", "1", …; other primitives
spread to the empty object. -/
def indexedObjOf (n : Nat) : List Val → ValObj
  | [] => .nil
  | v :: rest => .cons (toString n) v (indexedObjOf (n + 1) rest)

def charFieldsOf (n : Nat) : List Char → ValObj
  | [] => .nil
  | c :: rest => .cons (toString n) (.str (String.mk [c])) (charFieldsOf (n + 1) rest)

def spreadFields : Val → ValObj
  | .obj o => o
  | .arr a => indexedObjOf 0 a.toList
  | .str s => charFieldsOf 0 s.data
  | _ => .nil

/-! ## Delta operations (`DeltaOperation` in the delta module)

Each tag is a JS record from dotted path to argument; records keep
insertion order, which is the order `Object.entries` enumerates. -/

structure Delta where
  set : List (String × Val) := []
  unset : List (String × Bool) := []
  push : List (String × Val) := []
  pull : List (String × Val) := []
  pop : List (String × Int) := []
  addToSet : List (String × Val) := []
  append : List (String × List Val) := []
  prepend : List (String × List Val) := []
  splice : List (String × List Val) := []
  deriving DecidableEq

/-- `createEmptyDelta()`: every tag present and empty. -/
def emptyDelta : Delta := {}

/-- Association-list read with the first-match semantics of a JS
record/`Map` (keys are unique in the source, so first match is the
match). -/
def mapGet {α β : Type} [DecidableEq α] : List (α × β) → α → Option β
  | [], _ => none
  | (k, v) :: rest, key => if k = key then some v else mapGet rest key

/-- Association-list write: replace in place or append, as JS records and
`Map.set` do. -/
def mapSet {α β : Type} [DecidableEq α] : List (α × β) → α → β → List (α × β)
  | [], key, v => [(key, v)]
  | (k, w) :: rest, key, v =>
      if k = key then (key, v) :: rest else (k, w) :: mapSet rest key v

/-- Association-list delete (`Map.delete`). -/
def mapDel {α β : Type} [DecidableEq α] : List (α × β) → α → List (α × β)
  | [], _ => []
  | (k, w) :: rest, key =>
      if k = key then rest else (k, w) :: mapDel rest key

/-! ## `merge` from `merge.ts`

The source walks dotted paths through a mutable alias `current` into the
result object.  The embedding threads the same walk functionally.  The
`Option` result models the strict-mode TypeError the source raises when a
walk tries to create or assign a property of a primitive; no claim (and no
caller in the repository) exercises those paths. -/

/-- Final step `current[last] = value` of the `$set` walk.  Assigning a
property of a primitive (including a string) throws in strict mode. -/
def assignProp (cur : Val) (key : String) (v : Val) : Option Val :=
  match cur with
  | .obj o => some (.obj (o.set key v))
  | .arr a => some (.arr (arrAssign a key v))
  | _ => none

/-- `$set` walk: `if (!current[part]) current[part] = {}` then descend,
finally assign.  Descending through a primitive either throws on the
`= {}` write or ends in a throwing assignment, so primitives yield
`none` (for strings any continuation also ends at a throwing
assignment). -/
def setPath (cur : Val) (parts : List String) (v : Val) : Option Val :=
  match parts with
  | [] => some cur
  | [last] => assignProp cur last v
  | p :: rest =>
      match cur with
      | .obj o =>
          let child := o.get p
          let child' := if child.truthy then child else Val.obj .nil
          (setPath child' rest v).map (fun c => .obj (o.set p c))
      | .arr a =>
          let child := arrGet a p
          let child' := if child.truthy then child else Val.obj .nil
          (setPath child' rest v).map (fun c => .arr (arrAssign a p c))
      | _ => none

/-- `$unset` walk: `if (!current[part]) return` then descend, finally
`delete current[last]` (deleting a property of a primitive is a silent
no-op, so this walk never throws). -/
def delPath (cur : Val) (parts : List String) : Val :=
  match parts with
  | [] => cur
  | [last] =>
      match cur with
      | .obj o => .obj (o.del last)
      | .arr a =>
          -- `delete a[i]` leaves a hole, which reads back as undefined
          match canonicalIdx last with
          | some n => if n < a.length then .arr (a.setIdx n .undefV) else .arr a
          | none => .arr a
      | _ => cur
  | p :: rest =>
      let child := propGet cur p
      if child.truthy then
        match cur with
        | .obj o => .obj (o.set p (delPath child rest))
        | .arr a => .arr (arrAssign a p (delPath child rest))
        | _ => cur  -- string characters are immutable; nothing to mutate
      else cur

/-- Walk of `$push`/`$append`/`$prepend`: `if (!current[part])
current[part] = []` then descend; at the end mutate only if the target is
an array (`if (Array.isArray(current)) …`). -/
def growPath (cur : Val) (parts : List String) (f : ValArr → ValArr) : Option Val :=
  match parts with
  | [] =>
      match cur with
      | .arr a => some (.arr (f a))
      | _ => some cur
  | p :: rest =>
      match cur with
      | .obj o =>
          let child := o.get p
          let child' := if child.truthy then child else Val.arr .nil
          (growPath child' rest f).map (fun c => .obj (o.set p c))
      | .arr a =>
          let child := arrGet a p
          let child' := if child.truthy then child else Val.arr .nil
          (growPath child' rest f).map (fun c => .arr (arrAssign a p c))
      | .str s =>
          -- a truthy character continues the walk but nothing in a string
          -- can be mutated; a falsy read means `current[part] = []` throws
          let child := strIdx s p
          if child.truthy then (growPath child rest f).map (fun _ => .str s)
          else none
      | _ => none

/-- Walk of `$pop`/`$splice`: `if (!current[part]) return` then descend;
no property is ever assigned, so this walk never throws. -/
def shrinkPath (cur : Val) (parts : List String) (f : ValArr → ValArr) : Val :=
  match parts with
  | [] =>
      match cur with
      | .arr a => .arr (f a)
      | _ => cur
  | p :: rest =>
      let child := propGet cur p
      if child.truthy then
        match cur with
        | .obj o => .obj (o.set p (shrinkPath child rest f))
        | .arr a => .arr (arrAssign a p (shrinkPath child rest f))
        | _ => cur
      else cur

/-- JS `ToIntegerOrInfinity` restricted to the values splice arguments
take in this codebase (numbers; anything else coerces like 0). -/
def valToInt : Val → Int
  | .num n => n
  | .boolV true => 1
  | _ => 0

/-- `array.splice(...args)` with the standard clamping of start and
delete count; a call with no arguments removes nothing. -/
def ValArr.spliceOp (a : ValArr) (args : List Val) : ValArr :=
  match args with
  | [] => a
  | s :: rest =>
      let len : Int := a.length
      let start : Int := valToInt s
      let startN : Nat := (if start < 0 then max (len + start) 0 else min start len).toNat
      let l := a.toList
      match rest with
      | [] => ValArr.ofList (l.take startN)
      | dc :: items =>
          let dcN : Nat := (min (max (valToInt dc) 0) (len - startN)).toNat
          ValArr.ofList (l.take startN ++ items ++ l.drop (startN + dcN))

def applySetEntries (r : Val) (entries : List (String × Val)) : Option Val :=
  entries.foldlM (fun acc e => setPath acc (e.1.splitOn ".") e.2) r

def applyUnsetEntries (r : Val) (entries : List (String × Bool)) : Val :=
  entries.foldl (fun acc e => if e.2 then delPath acc (e.1.splitOn ".") else acc) r

def applyPushEntries (r : Val) (entries : List (String × Val)) : Option Val :=
  entries.foldlM (fun acc e => growPath acc (e.1.splitOn ".") (fun a => a.snoc e.2)) r

def applyAppendEntries (r : Val) (entries : List (String × List Val)) : Option Val :=
  entries.foldlM (fun acc e => growPath acc (e.1.splitOn ".") (fun a => a.appendList e.2)) r

def applyPrependEntries (r : Val) (entries : List (String × List Val)) : Option Val :=
  entries.foldlM (fun acc e => growPath acc (e.1.splitOn ".") (fun a => ValArr.prependList e.2 a)) r

def applyPopEntries (r : Val) (entries : List (String × Int)) : Val :=
  entries.foldl
    (fun acc e =>
      shrinkPath acc (e.1.splitOn ".") (fun a => if e.2 > 0 then a.popBack else a.popFront))
    r

def applySpliceEntries (r : Val) (entries : List (String × List Val)) : Val :=
  entries.foldl (fun acc e => shrinkPath acc (e.1.splitOn ".") (fun a => a.spliceOp e.2)) r

/-- `merge(target, delta)` from `merge.ts`.  `result` starts as the object
spread `{...target}` and is therefore never an array, so the block of
sequence operations sits behind an `Array.isArray(result)` guard that can
never hold; the embedding keeps the guard exactly as written.  The result
value's top constructor never changes during the walks, so testing it
after `$set`/`$unset` agrees with the source's test of the one `result`
binding. -/
def mergeVal (target : Val) (d : Delta) : Option Val := do
  let result : Val := .obj (spreadFields target)
  let r1 ← applySetEntries result d.set
  let r2 := applyUnsetEntries r1 d.unset
  match r2 with
  | .arr _ =>
      let r3 ← applyPushEntries r2 d.push
      let r4 ← applyAppendEntries r3 d.append
      let r5 ← applyPrependEntries r4 d.prepend
      let r6 := applyPopEntries r5 d.pop
      pure (applySpliceEntries r6 d.splice)
  | _ => pure r2

/-! ## Push recording in the two `createMutationProxy` variants of `proxy.ts`

Both variants intercept `array.push` and write one entry into the
accumulated delta at the dotted path of the array; they differ on calls
with more than one argument. -/

/-- First variant (the `getDelta`-style proxy):
`delta.$push[fullPath] = args.length === 1 ? args[0] : args`. -/
def recordPushVariantOne (d : Delta) (p : String) (args : List Val) : Delta :=
  { d with push := mapSet d.push p (match args with | [a] => a | _ => varr args) }

/-- Second variant (the handler-style proxy): a single argument records
`$push[path] = args[0]`, otherwise `$append[path] = args`. -/
def recordPushVariantTwo (d : Delta) (p : String) (args : List Val) : Delta :=
  match args with
  | [a] => { d with push := mapSet d.push p a }
  | _ => { d with append := mapSet d.append p args }

/-! ## Transaction state machine (`createTransactionMachine`) -/

/-- The machine's state value: `began` (initial), `committing` and
`rollingBack` (both terminal for mutation commands). -/
inductive TxValue where
  | began : TxValue
  | committing : TxValue
  | rollingBack : TxValue
  deriving DecidableEq

/-- The state name as it appears in error messages. -/
def TxValue.name : TxValue → String
  | .began => "began"
  | .committing => "committing"
  | .rollingBack => "rollingBack"

/-- One queued operation (`TransactionOperation`). -/
structure TxOp where
  optype : String
  item : Val
  trackingId : Option String
  deriving DecidableEq

/-- An operation as shipped in the completion event; `handleCommit` maps
the queue to `{type, item}`, dropping `trackingId`. -/
structure ChangeOut where
  ctype : String
  item : Val
  deriving DecidableEq

/-- A message the machine sends to its parent actor. -/
inductive ParentMsg where
  | transactionCompleted (transactionId : String) (status : String)
      (changes : List ChangeOut)
  deriving DecidableEq

/-- The machine context.  `stateField` is the context's `state` attribute,
initialised to "began" and touched only by `NOTIFY_CHANGES`; the machine's
state value is tracked separately, as in XState. -/
structure TxCtx where
  id : String
  stateField : String
  operations : List TxOp
  deriving DecidableEq

inductive TxEvent where
  | insertEv (item : Val) (trackingId : Option String)
  | updateEv (item : Val) (trackingId : Option String)
  | deleteEv (item : Val) (trackingId : Option String)
  | commitEv
  | rollbackEv
  | notifyChangesEv (status : String)
  deriving DecidableEq

/-- One step of the transaction machine: next context, next state value,
and the messages sent to the parent.  In `began`, mutation events append
to the queue (`addOperation`), `COMMIT` moves to `committing` and emits
`TRANSACTION_COMPLETED` with status `committed` (`handleCommit`), and
`ROLLBACK` moves to `rollingBack` with only logging actions.  In
`rollingBack`, `NOTIFY_CHANGES` assigns the context's `state` field.
Events without a transition are ignored. -/
def stepTx (c : TxCtx) (v : TxValue) (e : TxEvent) : TxCtx × TxValue × List ParentMsg :=
  match v, e with
  | .began, .insertEv item tid =>
      ({ c with operations := c.operations ++ [⟨"insert", item, tid⟩] }, .began, [])
  | .began, .updateEv item tid =>
      ({ c with operations := c.operations ++ [⟨"update", item, tid⟩] }, .began, [])
  | .began, .deleteEv item tid =>
      ({ c with operations := c.operations ++ [⟨"delete", item, tid⟩] }, .began, [])
  | .began, .commitEv =>
      (c, .committing,
        [.transactionCompleted c.id "committed"
          (c.operations.map (fun op => ⟨op.optype, op.item⟩))])
  | .began, .rollbackEv => (c, .rollingBack, [])
  | .rollingBack, .notifyChangesEv status =>
      ({ c with stateField := status }, .rollingBack, [])
  | _, _ => (c, v, [])

/-- The `TransactionStateError` raised by the `Transaction` class. -/
structure TransactionStateErr where
  message : String
  deriving DecidableEq

/-- The error message built by the `Transaction` mutation methods. -/
def txStateMsg (op : String) (stName : String) : String :=
  "Cannot " ++ op ++ ": transaction is not in began state (current state: " ++ stName ++ ")"

/-- The `Transaction` class facade: last observed machine snapshot. -/
structure TxClass where
  value : TxValue
  ctx : TxCtx
  deriving DecidableEq

/-- `Transaction.insert(item)`: guarded on the snapshot being `began`;
on success it sends the machine an `insert` event carrying a fresh
tracking id, otherwise it throws `TransactionStateError` and the machine
is never touched.  The pair returns the post-state and the error, if
any. -/
def Transaction.insert (t : TxClass) (item : Val) (freshId : String) :
    TxClass × Option TransactionStateErr :=
  if t.value = .began then
    let r := stepTx t.ctx t.value (.insertEv item (some freshId))
    (⟨r.2.1, r.1⟩, none)
  else
    (t, some ⟨txStateMsg "insert" t.value.name⟩)

/-- `Transaction.update(item)`; see `Transaction.insert`. -/
def Transaction.update (t : TxClass) (item : Val) (freshId : String) :
    TxClass × Option TransactionStateErr :=
  if t.value = .began then
    let r := stepTx t.ctx t.value (.updateEv item (some freshId))
    (⟨r.2.1, r.1⟩, none)
  else
    (t, some ⟨txStateMsg "update" t.value.name⟩)

/-- `Transaction.delete(item)`; see `Transaction.insert`. -/
def Transaction.delete (t : TxClass) (item : Val) (freshId : String) :
    TxClass × Option TransactionStateErr :=
  if t.value = .began then
    let r := stepTx t.ctx t.value (.deleteEv item (some freshId))
    (⟨r.2.1, r.1⟩, none)
  else
    (t, some ⟨txStateMsg "delete" t.value.name⟩)

/-! ## Collection coordinator (`collection.ts`) -/

/-- A buffered sync change message (`ChangeMessage`); the nested
`headers.operation` attribute is flattened to `operation`. -/
structure ChangeMsg where
  key : String
  value : Val
  operation : String
  offset : Int
  deriving DecidableEq

/-- One queued batch mutation (`pendingMutations` entries).  The
`transaction` and `updater` attributes hold an actor reference and a
closure and are not representable; no reader of the queue consults
them. -/
structure PendingMutation where
  operation : String
  item : Val
  trackingId : Option String
  deriving DecidableEq

/-- The `batchTransaction` record of the collection context.  `id` is an
`Option` because the assigns in `queueMutation` and the
`TRANSACTION_COMPLETED` reset rebuild the record without an `id`
attribute, leaving it `undefined`. -/
structure BatchTx where
  actorPresent : Bool
  id : Option String
  pendingMutations : List PendingMutation
  scheduled : Bool
  deriving DecidableEq

/-- The collection machine context.  `items` and `pendingItems` are keyed
by the tracking key (always a string produced by `nanoid` at runtime, but
the `TRANSACTION_COMPLETED` handler keys by whatever
`change.item.__tracking_id` holds, so the key type is `Val`).
`transactionActors` keeps only the registered ids; the actor references
themselves carry no state this model reads. -/
structure CollectionCtx where
  items : List (Val × Val)
  pendingItems : List (Val × Val)
  lockedItems : List (String × String)
  transactionActors : List String
  pendingSyncChanges : List ChangeMsg
  syncKeyToTrackingId : List (String × String)
  batchTransaction : BatchTx
  isUpToDate : Bool
  deriving DecidableEq

/-- `Collection.isItemLocked(trackingId, transactionId?)`: an absent or
empty owner reads as unlocked (`if (!lockedBy) return false`), an absent
or empty query id reads as locked (`if (!transactionId) return true`),
otherwise the item is locked iff the owner differs. -/
def isItemLocked (locks : List (String × String)) (trackingId : String)
    (transactionId : Option String) : Bool :=
  match mapGet locks trackingId with
  | none => false
  | some lockedBy =>
      if lockedBy = "" then false
      else
        match transactionId with
        | none => true
        | some tid => if tid = "" then true else lockedBy != tid

/-- The item-locked error: `Item ${trackingId} is already locked by
transaction ${owner}`.  The owner is read back from the lock table when
the message is built, hence the `Option`. -/
structure ItemLockedErr where
  trackingId : String
  owner : Option String
  deriving DecidableEq

/-- `Collection.lockItem(trackingId, transactionId)`: throws the
item-locked error when `isItemLocked` holds, otherwise stores the owner. -/
def lockItem (locks : List (String × String)) (trackingId : String)
    (transactionId : String) : Except ItemLockedErr (List (String × String)) :=
  if isItemLocked locks trackingId (some transactionId) then
    .error ⟨trackingId, mapGet locks trackingId⟩
  else
    .ok (mapSet locks trackingId transactionId)

/-- A `TRANSACTION_COMPLETED` operation entry as the collection machine
reads it (`event.changes`). -/
structure SettleChange where
  ctype : String
  item : Val
  deriving DecidableEq

/-- The `TRANSACTION_COMPLETED` event. -/
structure TcEvent where
  transactionId : String
  status : String
  changes : Option (List SettleChange)
  deriving DecidableEq

/-- The `assign` of the collection machine's `TRANSACTION_COMPLETED`
handler.  With no `changes` the assign returns `{}` and the context is
untouched.  Otherwise: every change writes (or, for `delete`, erases) the
item under its `__tracking_id` key — the `status` attribute is never
consulted here; locks owned by the settling transaction id or by the
literal `"batch-transaction"` are dropped; the settling transaction's
actor is deregistered; and when the settling id matches the batch
transaction's id the batch record is rebuilt empty and `pendingItems` is
cleared. -/
def settle (s : CollectionCtx) (e : TcEvent) : CollectionCtx :=
  match e.changes with
  | none => s
  | some chs =>
      let newItems := chs.foldl
        (fun m ch =>
          if ch.ctype = "delete" then mapDel m (propGet ch.item "__tracking_id")
          else mapSet m (propGet ch.item "__tracking_id") ch.item)
        s.items
      let newLocks := s.lockedItems.filter
        (fun p => !(p.2 == e.transactionId) && !(p.2 == "batch-transaction"))
      let newActors := s.transactionActors.filter (fun a => !(a == e.transactionId))
      if s.batchTransaction.id = some e.transactionId then
        { s with
            items := newItems
            lockedItems := newLocks
            transactionActors := newActors
            batchTransaction := ⟨false, none, [], false⟩
            pendingItems := [] }
      else
        { s with
            items := newItems
            lockedItems := newLocks
            transactionActors := newActors }

/-- An operation entry as consumed by the notification action: the item
carries its record fields and the delta its wrapper accumulated
(`getDelta()`). -/
structure PItem where
  fields : List (String × Val)
  delta : Delta
  deriving DecidableEq

structure PChange where
  ctype : String
  item : PItem
  deriving DecidableEq

/-- One entry of the list handed to the external `onMutation` handler. -/
structure MutEntry where
  operation : String
  item : PItem
  delta : Delta
  deriving DecidableEq

/-- Attribute read on a field list; absent attributes read as
`undefined`. -/
def getFieldList (fields : List (String × Val)) (key : String) : Val :=
  match mapGet fields key with
  | some v => v
  | none => .undefV

/-- The map-and-filter of the notification action: changes are
deduplicated by `item.__tracking_id` (a JS `Set` over the attribute's
value), the first occurrence wins, and each kept change becomes
`{operation: change.type, item: change.item, delta: change.item.getDelta()}`
— the item is passed through as is. -/
def buildMutations : List PChange → List Val → List MutEntry
  | [], _ => []
  | ch :: rest, seen =>
      let tid := getFieldList ch.item.fields "__tracking_id"
      if tid ∈ seen then buildMutations rest seen
      else ⟨ch.ctype, ch.item, ch.item.delta⟩ :: buildMutations rest (tid :: seen)

/-- The guard of the notification action: `if (!event.changes ||
event.status === 'rolledback') return`.  `none` means `onMutation` is not
invoked. -/
def notifyEntries (status : String) (changes : Option (List PChange)) :
    Option (List MutEntry) :=
  match changes with
  | none => none
  | some chs => if status = "rolledback" then none else some (buildMutations chs [])

/-- `Map.set` on a key-only view of `transactionActors`: registering an
already-registered id replaces its actor and keeps the key once. -/
def addActor (actors : List String) (id : String) : List String :=
  if id ∈ actors then actors else actors ++ [id]

/-- `Collection.insert(item, options)` without a configured schema (none
of the claims involves validation), followed by the collection machine's
handling of the `MUTATE` event it sends.  In source order:

  * `itemWithTracking = { ...item, __tracking_id: trackingId }` with a
    fresh `nanoid()` tracking id (passed in as `trackingId`);
  * `createTrackedProxy` wraps it and stores the wrapper in
    `pendingItems` (the wrapper's record part is the item itself);
  * `lockItem(trackingId, options.transaction?.id() ?? "batch-transaction")`
    — on failure the error propagates and the already-written
    `pendingItems` entry stays;
  * the `MUTATE` event: with a transaction, `trackPendingItem` re-writes
    `pendingItems` and `forwardToTransaction` sends the operation to the
    transaction actor (outside this context); without one,
    `createBatchTransaction` lazily registers a batch actor (with the
    fresh id `freshBatchTxId`), `queueMutation` appends to the queue —
    its assign rebuilds `batchTransaction` from `{actor,
    pendingMutations}` only, dropping `id` and `batchScheduled` — and
    `scheduleBatchIfNeeded` sets the scheduled flag.

Returns the wrapper (or the lock error) and the post-call context. -/
def insertStep (s : CollectionCtx) (item : Val) (trackingId : String)
    (txId : Option String) (freshBatchTxId : String) :
    Except ItemLockedErr Val × CollectionCtx :=
  let itemWithTracking : Val := .obj ((spreadFields item).set "__tracking_id" (.str trackingId))
  let s1 := { s with pendingItems := mapSet s.pendingItems (.str trackingId) itemWithTracking }
  let transactionId := match txId with | some t => t | none => "batch-transaction"
  if isItemLocked s1.lockedItems trackingId (some transactionId) then
    (.error ⟨trackingId, mapGet s1.lockedItems trackingId⟩, s1)
  else
    let s2 := { s1 with lockedItems := mapSet s1.lockedItems trackingId transactionId }
    match txId with
    | some _ =>
        let s3 := { s2 with
          pendingItems := mapSet s2.pendingItems (.str trackingId) itemWithTracking }
        (.ok itemWithTracking, s3)
    | none =>
        let s3 :=
          if s2.batchTransaction.actorPresent then s2
          else { s2 with
            transactionActors := addActor s2.transactionActors freshBatchTxId
            batchTransaction := { s2.batchTransaction with
              actorPresent := true, id := some freshBatchTxId } }
        let s4 := { s3 with
          batchTransaction :=
            ⟨s3.batchTransaction.actorPresent, none,
              s3.batchTransaction.pendingMutations
                ++ [⟨"insert", itemWithTracking, some trackingId⟩],
              false⟩ }
        let s5 :=
          if s4.batchTransaction.actorPresent && !s4.batchTransaction.scheduled then
            { s4 with batchTransaction := { s4.batchTransaction with scheduled := true } }
          else s4
        (.ok itemWithTracking, s5)

/-- JS `Set` iteration order over a key list: first occurrences, in
insertion order. -/
def dedupKeys (seen : List Val) : List Val → List Val
  | [] => []
  | k :: rest =>
      if k ∈ seen then dedupKeys seen rest
      else k :: dedupKeys (k :: seen) rest

/-- `Collection.getItems()`: the union of confirmed and pending tracking
keys, preferring the pending wrapper; a key found only in `items` is
returned as `{...confirmedItem, __tracking_id: trackingId}`.  The final
`none` arm is unreachable: every deduplicated key comes from one of the
two maps. -/
def getItems (s : CollectionCtx) : List Val :=
  (dedupKeys [] (s.items.map (fun p => p.1) ++ s.pendingItems.map (fun p => p.1))).map
    (fun k =>
      match mapGet s.pendingItems k with
      | some pending => pending
      | none =>
          match mapGet s.items k with
          | some confirmed => .obj ((spreadFields confirmed).set "__tracking_id" k)
          | none => .undefV)

/-- String truthiness of an optional lookup result (`existingTrackingId`
is tested with `?`, `||` and `if` in the source, all falsy on `undefined`
and on the empty string). -/
def optStrTruthy : Option String → Bool
  | none => false
  | some s => s != ""

/-- Stable insertion of a change into a buffer sorted by ascending
offset; equal offsets keep their original relative order, as the
engine's stable `Array.prototype.sort` does. -/
def insertByOffset (c : ChangeMsg) : List ChangeMsg → List ChangeMsg
  | [] => [c]
  | d :: rest => if c.offset < d.offset then c :: d :: rest else d :: insertByOffset c rest

def sortByOffset (l : List ChangeMsg) : List ChangeMsg :=
  l.foldr insertByOffset []

/-- Property write `value[k] = v` on a sync change value.  The sync
engine types `value` as a record, so only the object arm is reachable;
the other arms leave the value unchanged. -/
def propSet (cur : Val) (k : String) (v : Val) : Val :=
  match cur with
  | .obj o => .obj (o.set k v)
  | other => other

/-- The per-change body of the drain loop in `applyPendingChanges`.
State: current `newItems`, `newSyncKeyToTrackingId`, the live
`pendingItems` map (its wrappers are mutated in place by the update
mirror), and the number of fresh ids consumed so far (`nanoid()` calls
modelled by the supply `fresh`). -/
def applyOneChange (fresh : Nat → String)
    (st : List (Val × Val) × List (String × String) × List (Val × Val) × Nat)
    (ch : ChangeMsg) :
    List (Val × Val) × List (String × String) × List (Val × Val) × Nat :=
  let (items, syncMap, pending, n) := st
  let existingTid : Option String := mapGet syncMap ch.key
  let existingItem : Option Val :=
    match existingTid with
    | some t => if t = "" then none else mapGet items (.str t)
    | none => none
  let (trackingId, n') : String × Nat :=
    if optStrTruthy existingTid then
      (match existingTid with | some t => t | none => "", n)
    else (fresh n, n + 1)
  let value' := propSet ch.value "__tracking_id" (.str trackingId)
  if ch.operation = "insert" then
    (mapSet items (.str trackingId) value', mapSet syncMap ch.key trackingId, pending, n')
  else if ch.operation = "update" then
    match existingItem with
    | some existing =>
        let fieldsOf : Val → List (String × Val) := fun v =>
          match v with | .obj o => o.toList | _ => []
        let updated := (fieldsOf value').foldl
          (fun acc kv => if kv.1 = "__tracking_id" then acc else propSet acc kv.1 kv.2)
          existing
        let items' := mapSet items (.str trackingId) updated
        let pending' :=
          match mapGet pending (.str trackingId) with
          | some proxyV =>
              let proxy' := (fieldsOf value').foldl
                (fun acc kv => if kv.1 = "__tracking_id" then acc else propSet acc kv.1 kv.2)
                proxyV
              mapSet pending (.str trackingId) proxy'
          | none => pending
        (items', syncMap, pending', n')
    | none => (items, syncMap, pending, n')
  else if ch.operation = "delete" then
    if optStrTruthy existingTid then
      match existingTid with
      | some t => (mapDel items (.str t), mapDel syncMap ch.key, pending, n')
      | none => (items, syncMap, pending, n')
    else (items, syncMap, pending, n')
  else (items, syncMap, pending, n')

/-- `Collection.applyPendingChanges()`.  The guard defers (returns with
nothing changed) while any transaction actor is registered, a batch
transaction actor exists, or the collection is not yet up-to-date — the
lock table is not consulted.  A drain sorts the buffer by ascending
offset, folds the changes over the item and sync-key maps (mutating
pending wrappers in place for mirrored updates), publishes the new maps
through a synced `MUTATE` event, and clears the buffer. -/
def applyPendingChanges (fresh : Nat → String) (s : CollectionCtx) : CollectionCtx :=
  if s.transactionActors.length > 0 || s.batchTransaction.actorPresent || !s.isUpToDate then
    s
  else
    let changes := sortByOffset s.pendingSyncChanges
    let r := changes.foldl (applyOneChange fresh)
      (s.items, s.syncKeyToTrackingId, s.pendingItems, 0)
    { s with
        items := r.1
        syncKeyToTrackingId := r.2.1
        pendingItems := r.2.2.1
        pendingSyncChanges := [] }

/-! ## Concrete states and events used by the claim-level theorems -/

/-- An empty collection context with a registered batch-transaction id and
no live actors. -/
def emptyCtx : CollectionCtx :=
  { items := []
    pendingItems := []
    lockedItems := []
    transactionActors := []
    pendingSyncChanges := []
    syncKeyToTrackingId := []
    batchTransaction := ⟨false, some "b0", [], false⟩
    isUpToDate := false }

/-- Fresh-id supply standing in for `nanoid()` during a drain. -/
def syncFresh : Nat → String := fun n => "sync-" ++ toString n

/-- A state that is up-to-date with no transaction or batch actors but a
non-empty lock table, holding one buffered sync insert. -/
def drainLockedState : CollectionCtx :=
  { emptyCtx with
      lockedItems := [("i1", "tx1")]
      pendingSyncChanges := [⟨"k", vobj [("a", .num 1)], "insert", 0⟩]
      isUpToDate := true }

/-- The same state with the up-to-date flag cleared (a deferring state). -/
def drainDeferState : CollectionCtx := { drainLockedState with isUpToDate := false }

/-- The delta recorded by the first proxy variant for `push("x1", "x2")`
on the sequence at path "items". -/
def multiPushDelta : Delta := recordPushVariantOne emptyDelta "items" [.str "x1", .str "x2"]

/-- A transaction context holding one queued operation. -/
def txCtxOne : TxCtx := ⟨"tx1", "began", [⟨"insert", vobj [("a", .num 1)], some "k1"⟩]⟩

/-- An operation item carrying its reserved tracking attribute. -/
def taggedItem : PItem := ⟨[("__tracking_id", .str "t1"), ("title", .str "x")], emptyDelta⟩

def taggedChanges : List PChange := [⟨"insert", taggedItem⟩]

/-- A settle-level item carrying its reserved tracking attribute. -/
def taggedItemVal : Val := vobj [("__tracking_id", .str "a"), ("title", .str "x")]

/-- A rolled-back completion that nevertheless carries an operation list. -/
def rolledbackEvent : TcEvent := ⟨"t1", "rolledback", some [⟨"insert", taggedItemVal⟩]⟩

/-- A state with one lock owned by the literal batch owner id and one by
another transaction; the batch transaction's own id is "BB". -/
def batchLockState : CollectionCtx :=
  { emptyCtx with
      lockedItems := [("i1", "batch-transaction"), ("i2", "B")]
      batchTransaction := ⟨false, some "BB", [], false⟩ }

/-- A completion of transaction "A" (not the batch transaction). -/
def settleAEvent : TcEvent := ⟨"A", "committed", some []⟩

/-- The record and delta of claim C6's failing input. -/
def popTarget : Val := vobj [("items", varr [.str "a", .str "b", .str "c"])]

def popDelta : Delta := { pop := [("items", 1)] }

/-! ## Helper lemmas -/

theorem mapGet_mapSet_self {α β : Type} [DecidableEq α] (m : List (α × β)) (k : α) (v : β) :
    mapGet (mapSet m k v) k = some v := by
  induction m with
  | nil => simp [mapSet, mapGet]
  | cons hd tl ih =>
      obtain ⟨k', w⟩ := hd
      by_cases h : k' = k
      · simp [mapSet, mapGet, h]
      · simp [mapSet, mapGet, h, ih]

theorem mapSet_eq_self {α β : Type} [DecidableEq α] (m : List (α × β)) (k : α) (v : β)
    (h : mapGet m k = some v) : mapSet m k v = m := by
  induction m with
  | nil => simp [mapGet] at h
  | cons hd tl ih =>
      obtain ⟨k', w⟩ := hd
      by_cases hk : k' = k
      · subst hk
        simp [mapGet] at h
        simp [mapSet, h]
      · simp [mapGet, hk] at h
        simp [mapSet, hk, ih h]

theorem mem_keys_of_mapGet {α β : Type} [DecidableEq α] {m : List (α × β)} {k : α} {v : β}
    (h : mapGet m k = some v) : k ∈ m.map Prod.fst := by
  induction m with
  | nil => simp [mapGet] at h
  | cons hd tl ih =>
      obtain ⟨k', w⟩ := hd
      by_cases hk : k' = k
      · subst hk; simp
      · simp [mapGet, hk] at h
        simp [ih h]

theorem mem_dedupKeys {l : List Val} {k : Val} (seen : List Val) (h : k ∈ l) :
    k ∈ seen ∨ k ∈ dedupKeys seen l := by
  induction l generalizing seen with
  | nil => cases h
  | cons a rest ih =>
      rcases List.mem_cons.mp h with rfl | htl
      · by_cases ha : k ∈ seen
        · exact Or.inl ha
        · right; simp [dedupKeys, ha]
      · by_cases ha : a ∈ seen
        · rcases ih seen htl with h' | h'
          · exact Or.inl h'
          · right; simp [dedupKeys, ha, h']
        · rcases ih (a :: seen) htl with h' | h'
          · rcases List.mem_cons.mp h' with rfl | h''
            · right; simp [dedupKeys, ha]
            · exact Or.inl h''
          · right; simp [dedupKeys, ha, h']

theorem mem_getItems_of_pending (s : CollectionCtx) (k v : Val)
    (h : mapGet s.pendingItems k = some v) : v ∈ getItems s := by
  have hk : k ∈ s.items.map (fun p => p.1) ++ s.pendingItems.map (fun p => p.1) := by
    refine List.mem_append.mpr (Or.inr ?_)
    simpa using mem_keys_of_mapGet h
  have hdk : k ∈ dedupKeys []
      (s.items.map (fun p => p.1) ++ s.pendingItems.map (fun p => p.1)) := by
    rcases mem_dedupKeys [] hk with h' | h'
    · cases h'
    · exact h'
  refine List.mem_map.mpr ⟨k, hdk, ?_⟩
  simp [h]

theorem ValObj.get_set_self : (o : ValObj) → (k : String) → (v : Val) →
    (o.set k v).get k = v
  | .nil, k, v => by simp [ValObj.set, ValObj.get]
  | .cons k' w rest, k, v => by
      by_cases h : k' = k
      · simp [ValObj.set, ValObj.get, h]
      · simp [ValObj.set, ValObj.get, h, ValObj.get_set_self rest k v]

/-! ## Claim theorems -/

/-- C7. Lock acquisition on an item is strictly exclusive: on an unlocked
item or one already locked by the requesting (non-empty) transaction id,
`lockItem` succeeds, and same-owner re-acquisition leaves the lock table
unchanged; when a different (non-empty) owner holds the lock, `lockItem`
raises the item-locked error carrying that owner's id and the table is
not modified.  Transaction ids in the engine are `nanoid()` values or the
literal "batch-transaction", never empty, hence the non-emptiness
hypotheses. -/
theorem lockItem_exclusive (L : List (String × String)) (t tid : String)
    (htid : tid ≠ "") :
    (mapGet L t = none → lockItem L t tid = .ok (mapSet L t tid)) ∧
    (mapGet L t = some tid → lockItem L t tid = .ok L) ∧
    (∀ owner, mapGet L t = some owner → owner ≠ tid → owner ≠ "" →
      lockItem L t tid = .error ⟨t, some owner⟩) := by
  refine ⟨fun h => ?_, fun h => ?_, fun owner h hot ho => ?_⟩
  · simp [lockItem, isItemLocked, h]
  · simp [lockItem, isItemLocked, h, htid, mapSet_eq_self L t tid h]
  · simp [lockItem, isItemLocked, h, htid, ho, hot, bne_iff_ne]

theorem lockItem_exclusive_witness :
    lockItem [("i", "A")] "i" "A" = .ok [("i", "A")] ∧
    lockItem [("i", "B")] "i" "A" = .error ⟨"i", some "B"⟩ :=
  ⟨(lockItem_exclusive [("i", "A")] "i" "A" (by decide)).2.1 (by decide),
   (lockItem_exclusive [("i", "B")] "i" "A" (by decide)).2.2 "B" (by decide) (by decide)
     (by decide)⟩

/-- C9. On a transaction whose state value is not `began` (committing or
rollingBack), `insert`, `update` and `delete` fail with the
transaction-state error whose message carries the current state name, and
the transaction — in particular its operation list — is unchanged. -/
theorem mutation_outside_began_fails (t : TxClass) (item : Val) (k : String)
    (h : t.value ≠ .began) :
    Transaction.insert t item k = (t, some ⟨txStateMsg "insert" t.value.name⟩) ∧
    Transaction.update t item k = (t, some ⟨txStateMsg "update" t.value.name⟩) ∧
    Transaction.delete t item k = (t, some ⟨txStateMsg "delete" t.value.name⟩) := by
  refine ⟨?_, ?_, ?_⟩ <;>
    simp [Transaction.insert, Transaction.update, Transaction.delete, h]

theorem mutation_outside_began_fails_witness :
    Transaction.insert ⟨.committing, ⟨"tx1", "began", []⟩⟩ (vobj []) "k"
      = (⟨.committing, ⟨"tx1", "began", []⟩⟩,
         some ⟨txStateMsg "insert" "committing"⟩) ∧
    Transaction.update ⟨.committing, ⟨"tx1", "began", []⟩⟩ (vobj []) "k"
      = (⟨.committing, ⟨"tx1", "began", []⟩⟩,
         some ⟨txStateMsg "update" "committing"⟩) ∧
    Transaction.delete ⟨.committing, ⟨"tx1", "began", []⟩⟩ (vobj []) "k"
      = (⟨.committing, ⟨"tx1", "began", []⟩⟩,
         some ⟨txStateMsg "delete" "committing"⟩) :=
  mutation_outside_began_fails ⟨.committing, ⟨"tx1", "began", []⟩⟩ (vobj []) "k" (by decide)

/-- C3 (counterexample).  Sending ROLLBACK to a transaction in `began`
with a non-empty operation queue transitions it to `rollingBack` but
emits no `TRANSACTION_COMPLETED` message at all — in particular none with
status `rolledback` and the accumulated operations, contrary to the
claim. -/
theorem rollback_no_completion_cex :
    (stepTx txCtxOne .began .rollbackEv).2.1 = .rollingBack ∧
    ¬ ∃ chs, ParentMsg.transactionCompleted "tx1" "rolledback" chs
        ∈ (stepTx txCtxOne .began .rollbackEv).2.2 := by
  constructor
  · rfl
  · rintro ⟨chs, h⟩
    simp [stepTx] at h

/-- C3 (amended).  In `began`, ROLLBACK transitions the machine to the
terminal `rollingBack` state, leaves the context (operation queue
included) unchanged, and sends nothing to the parent; only COMMIT emits a
`TRANSACTION_COMPLETED` event, with status `committed`. -/
theorem rollback_silent (c : TxCtx) :
    stepTx c .began .rollbackEv = (c, .rollingBack, []) := rfl

/-- C2 (counterexample).  In the first `createMutationProxy` variant, a
two-argument `push("x1", "x2")` on the sequence at path "items" records
the argument array under `$push` and records nothing under `$append`,
contrary to the claim. -/
theorem push_multiarg_records_push_cex :
    mapGet multiPushDelta.append "items" = none ∧
    mapGet multiPushDelta.push "items" = some (varr [.str "x1", .str "x2"]) := by
  constructor <;> rfl

/-- C2 (amended).  The second embedded proxy variant records a multi-arg
`push(x1,…,xn)` (n>1) as `$append[P] = [x1,…,xn]`, leaving `$push`
untouched, and a single-arg `push(x)` as `$push[P] = x`; the first
variant instead records the multi-arg case as `$push[P] = [x1,…,xn]`,
leaving `$append` untouched. -/
theorem push_recording_variants (d : Delta) (p : String) (args : List Val)
    (h : 1 < args.length) :
    recordPushVariantTwo d p args = { d with append := mapSet d.append p args } ∧
    (recordPushVariantTwo d p args).push = d.push ∧
    (∀ a, recordPushVariantTwo d p [a] = { d with push := mapSet d.push p a }) ∧
    recordPushVariantOne d p args = { d with push := mapSet d.push p (varr args) } ∧
    (recordPushVariantOne d p args).append = d.append := by
  match args with
  | [] => simp at h
  | [a] => simp at h
  | a :: b :: rest =>
      refine ⟨rfl, rfl, fun a => rfl, rfl, rfl⟩

theorem push_recording_variants_witness :
    recordPushVariantTwo emptyDelta "items" [.str "x1", .str "x2"]
      = { emptyDelta with append := mapSet emptyDelta.append "items" [.str "x1", .str "x2"] } ∧
    (recordPushVariantTwo emptyDelta "items" [.str "x1", .str "x2"]).push = emptyDelta.push :=
  ⟨(push_recording_variants emptyDelta "items" [.str "x1", .str "x2"] (by decide)).1,
   (push_recording_variants emptyDelta "items" [.str "x1", .str "x2"] (by decide)).2.1⟩

/-- C5 (code evaluated at the failing input).  The collection machine's
`TRANSACTION_COMPLETED` assign never consults the event's status: a
completion with status `rolledback` that carries an insert operation
writes the item into the authoritative map of an initially empty
collection, where the claim (and §4.4.2 of the design) requires the map
to be left unchanged.  The sibling notification action does branch on
`rolledback`, which marks the missing status check in the assign as a
slip. -/
theorem settle_rolledback_writes :
    (settle emptyCtx rolledbackEvent).items = [(.str "a", taggedItemVal)] ∧
    emptyCtx.items = [] := by
  constructor <;> rfl

/-- C6 (code evaluated at the failing input).  In `merge`, every sequence
operation sits behind `if (Array.isArray(result))` where `result` is the
object spread `{...target}` — never an array — so `$pop: {items: 1}` on
`{items: ["a","b","c"]}` returns the record unchanged instead of removing
the last element as the claim (and the code's own comments) describe. -/
theorem merge_sequence_ops_dead :
    mergeVal popTarget popDelta = some popTarget ∧
    mergeVal popTarget popDelta ≠ some (vobj [("items", varr [.str "a", .str "b"])]) := by
  constructor
  · rfl
  · decide

/-- C8 (counterexample).  Settling transaction "A" — while the batch
transaction's id is "BB" — releases the lock owned by the literal
"batch-transaction" owner id even though the settling transaction is not
the batch transaction, contrary to the claim's "only when the settling
transaction is the batch transaction". -/
theorem settle_releases_batch_lock_cex :
    (settle batchLockState settleAEvent).lockedItems = [("i2", "B")] ∧
    batchLockState.batchTransaction.id ≠ some settleAEvent.transactionId ∧
    ("i1", "batch-transaction") ∈ batchLockState.lockedItems := by
  refine ⟨rfl, by decide, by decide⟩

/-- C8 (amended).  When a completion event carrying a change list is
processed, exactly the locks whose owner is the settling transaction id
or the literal batch owner id "batch-transaction" are released — the
latter on every settlement, whether or not the settling transaction is
the batch transaction; locks held by any other owner survive
unchanged. -/
theorem settle_lock_release (s : CollectionCtx) (e : TcEvent)
    (chs : List SettleChange) (h : e.changes = some chs) :
    (settle s e).lockedItems = s.lockedItems.filter
      (fun p => !(p.2 == e.transactionId) && !(p.2 == "batch-transaction")) := by
  simp only [settle, h]
  split <;> rfl

theorem settle_lock_release_witness :
    (settle batchLockState settleAEvent).lockedItems
      = batchLockState.lockedItems.filter
          (fun p => !(p.2 == settleAEvent.transactionId) && !(p.2 == "batch-transaction")) :=
  settle_lock_release batchLockState settleAEvent [] rfl

/-- C4 (counterexample).  A committed completion carrying one insert whose
item holds `__tracking_id = "t1"` produces an `onMutation` entry whose
item still carries the attribute: it is not true that the reserved
attribute is absent from every surfaced item. -/
theorem onMutation_tracking_id_present_cex :
    ¬ ∀ m ∈ buildMutations taggedChanges [],
        getFieldList m.item.fields "__tracking_id" = Val.undefV := by
  decide

/-- C4 (amended).  Every entry handed to `onMutation` carries some
change's item verbatim — no attribute, `__tracking_id` included, is
removed — together with that change's kind and the item's accumulated
delta; entries are deduplicated by tracking id, and no entries are
produced for a rolled-back completion. -/
theorem onMutation_items_verbatim (chs : List PChange) (seen : List Val)
    (m : MutEntry) (h : m ∈ buildMutations chs seen) :
    ∃ ch ∈ chs, m.item = ch.item ∧ m.operation = ch.ctype ∧ m.delta = ch.item.delta := by
  induction chs generalizing seen with
  | nil => simp [buildMutations] at h
  | cons ch rest ih =>
      rw [buildMutations] at h
      by_cases hseen : getFieldList ch.item.fields "__tracking_id" ∈ seen
      · rw [if_pos hseen] at h
        obtain ⟨ch', hch', hm⟩ := ih _ h
        exact ⟨ch', List.mem_cons_of_mem _ hch', hm⟩
      · rw [if_neg hseen] at h
        rcases List.mem_cons.mp h with rfl | htl
        · exact ⟨ch, List.mem_cons_self _ _, rfl, rfl, rfl⟩
        · obtain ⟨ch', hch', hm⟩ := ih _ htl
          exact ⟨ch', List.mem_cons_of_mem _ hch', hm⟩

theorem onMutation_items_verbatim_witness :
    ∃ ch ∈ taggedChanges,
      (⟨"insert", taggedItem, emptyDelta⟩ : MutEntry).item = ch.item ∧
      (⟨"insert", taggedItem, emptyDelta⟩ : MutEntry).operation = ch.ctype ∧
      (⟨"insert", taggedItem, emptyDelta⟩ : MutEntry).delta = ch.item.delta :=
  onMutation_items_verbatim taggedChanges [] ⟨"insert", taggedItem, emptyDelta⟩ (by decide)

/-- C1 (counterexample).  In a state that is up-to-date, with no
registered transaction actors and no batch actor but a NON-empty lock
table, a drain proceeds anyway: the buffered insert is applied and the
buffer cleared, where the claim requires deferral with buffer and items
unchanged whenever the lock table is non-empty. -/
theorem drain_ignores_locks_cex :
    drainLockedState.lockedItems ≠ [] ∧
    (applyPendingChanges syncFresh drainLockedState).pendingSyncChanges = [] ∧
    drainLockedState.pendingSyncChanges ≠ [] ∧
    (applyPendingChanges syncFresh drainLockedState).items ≠ drainLockedState.items := by
  refine ⟨by decide, rfl, by decide, by decide⟩

/-- C1 (amended).  A sync drain proceeds exactly when the collection is
up-to-date, the transaction registry is empty, and the batch transaction
actor is nil; the lock table is NOT consulted.  In every other state the
drain is deferred and the whole context — buffer and items map included —
is unchanged; when it proceeds, the buffer is cleared (and the untouched
lock table witnesses that locks do not gate it). -/
theorem applyPendingChanges_gate (fresh : Nat → String) (s : CollectionCtx) :
    (s.transactionActors ≠ [] ∨ s.batchTransaction.actorPresent = true ∨
        s.isUpToDate = false →
      applyPendingChanges fresh s = s) ∧
    (s.transactionActors = [] → s.batchTransaction.actorPresent = false →
        s.isUpToDate = true →
      (applyPendingChanges fresh s).pendingSyncChanges = [] ∧
      (applyPendingChanges fresh s).lockedItems = s.lockedItems) := by
  constructor
  · intro h
    have hc : (s.transactionActors.length > 0 || s.batchTransaction.actorPresent
        || !s.isUpToDate) = true := by
      rcases h with h | h | h
      · have : 0 < s.transactionActors.length := List.length_pos.mpr h
        simp [this]
      · simp [h]
      · simp [h]
    unfold applyPendingChanges
    rw [if_pos hc]
  · intro h1 h2 h3
    have hc : ¬ ((s.transactionActors.length > 0 || s.batchTransaction.actorPresent
        || !s.isUpToDate) = true) := by
      simp [h1, h2, h3]
    unfold applyPendingChanges
    rw [if_neg hc]
    exact ⟨rfl, rfl⟩

theorem applyPendingChanges_gate_witness :
    applyPendingChanges syncFresh drainDeferState = drainDeferState ∧
    (applyPendingChanges syncFresh drainLockedState).lockedItems
      = drainLockedState.lockedItems :=
  ⟨(applyPendingChanges_gate syncFresh drainDeferState).1 (Or.inr (Or.inr rfl)),
   ((applyPendingChanges_gate syncFresh drainLockedState).2 rfl rfl rfl).2⟩

/-- Settlement lemma: a committed completion carrying an insert of an
item makes the authoritative map hold that item under its tracking
key. -/
theorem mapGet_settle_insert (s' : CollectionCtx) (sid : String) (pv k : Val)
    (hk : propGet pv "__tracking_id" = k) :
    mapGet (settle s' ⟨sid, "committed", some [⟨"insert", pv⟩]⟩).items k = some pv := by
  simp only [settle, List.foldl]
  split <;> simp [hk, mapGet_mapSet_self]

/-- C10.  `Collection.insert` never writes the authoritative `items` map
during the call: given a fresh (unlocked) tracking id, the call returns
the wrapper `{...item, __tracking_id: trackingId}`, stores it only in
`pendingItems`, leaves `items` untouched, and `getItems` surfaces the
wrapper from `pendingItems`; `items` gains the entry only once the
corresponding `TRANSACTION_COMPLETED` settlement is processed. -/
theorem insert_defers_items_write (s : CollectionCtx) (item : Val) (tid : String)
    (txId : Option String) (fb sid : String)
    (hfree : mapGet s.lockedItems tid = none) :
    (insertStep s item tid txId fb).1
      = .ok (.obj ((spreadFields item).set "__tracking_id" (.str tid))) ∧
    (insertStep s item tid txId fb).2.items = s.items ∧
    mapGet (insertStep s item tid txId fb).2.pendingItems (.str tid)
      = some (.obj ((spreadFields item).set "__tracking_id" (.str tid))) ∧
    (Val.obj ((spreadFields item).set "__tracking_id" (.str tid)))
      ∈ getItems (insertStep s item tid txId fb).2 ∧
    mapGet (settle (insertStep s item tid txId fb).2
        ⟨sid, "committed",
          some [⟨"insert", .obj ((spreadFields item).set "__tracking_id" (.str tid))⟩]⟩).items
        (.str tid)
      = some (.obj ((spreadFields item).set "__tracking_id" (.str tid))) := by
  have hkey : propGet (Val.obj ((spreadFields item).set "__tracking_id" (.str tid)))
      "__tracking_id" = .str tid := by
    simp [propGet, ValObj.get_set_self]
  have hnl : ∀ owner, isItemLocked s.lockedItems tid (some owner) = false := by
    intro owner
    simp [isItemLocked, hfree]
  cases txId with
  | some t =>
      have hpend : mapGet (insertStep s item tid (some t) fb).2.pendingItems (.str tid)
          = some (.obj ((spreadFields item).set "__tracking_id" (.str tid))) := by
        simp only [insertStep, hnl, Bool.false_eq_true, if_false]
        exact mapGet_mapSet_self _ _ _
      refine ⟨?_, ?_, hpend, mem_getItems_of_pending _ _ _ hpend,
        mapGet_settle_insert _ _ _ _ hkey⟩
      · simp only [insertStep, hnl, Bool.false_eq_true, if_false]
      · simp only [insertStep, hnl, Bool.false_eq_true, if_false]
  | none =>
      have hpend : mapGet (insertStep s item tid none fb).2.pendingItems (.str tid)
          = some (.obj ((spreadFields item).set "__tracking_id" (.str tid))) := by
        simp only [insertStep, hnl, Bool.false_eq_true, if_false]
        split <;> split <;> exact mapGet_mapSet_self _ _ _
      refine ⟨?_, ?_, hpend, mem_getItems_of_pending _ _ _ hpend,
        mapGet_settle_insert _ _ _ _ hkey⟩
      · simp only [insertStep, hnl, Bool.false_eq_true, if_false]
      · simp only [insertStep, hnl, Bool.false_eq_true, if_false]
        split <;> split <;> rfl

theorem insert_defers_items_write_witness :
    (insertStep emptyCtx (vobj [("a", .num 1)]) "t9" none "bt1").2.items = emptyCtx.items ∧
    mapGet (insertStep emptyCtx (vobj [("a", .num 1)]) "t9" none "bt1").2.pendingItems
        (.str "t9")
      = some (.obj ((spreadFields (vobj [("a", .num 1)])).set "__tracking_id" (.str "t9"))) :=
  ⟨(insert_defers_items_write emptyCtx (vobj [("a", .num 1)]) "t9" none "bt1" "s1" rfl).2.1,
   (insert_defers_items_write emptyCtx (vobj [("a", .num 1)]) "t9" none "bt1" "s1" rfl).2.2.1⟩
